import Mathlib

/-!
# Verification of the nommy parser library and its derive engine

Shallow embedding of the runtime primitives in `nommy/src/text/tag.rs` and
`nommy/src/text/one_of.rs`, and of the code generated by the enum derivation
engine in `nommy-derive/src/enum_impl.rs`.

Modelled from the spec: the `Buffer`/`Cursor` token-stream abstraction
(nommy's buffer module is not among the given sources). Per spec §4.1 a
buffer is a stateful read position over a token producer whose `next()`
returns the next token and advances, and whose cursors are independent
read positions over the same tokens. We model a buffer (or a cursor) by
the list of tokens remaining at its read position; `next` is uncons,
forking a cursor hands the same list to the callee, and consuming `n`
tokens (`Iterator::take(n)`) yields `List.take n` and leaves `List.drop n`.
A parser that mutates the buffer is modelled by returning the result
paired with the final buffer state.
-/

namespace Nommy

/-- UTF-8 byte length of a string given as its list of characters.
Models Rust's `str::len()` (a byte count, not a character count). -/
def utf8Len (s : List Char) : Nat := (s.map Char.utf8Size).sum

/-- Rust `{:?}` debug formatting of a string (no characters needing
escapes appear in the inputs considered here). -/
def debugStr (s : List Char) : String := "\"" ++ String.mk s ++ "\""

/-- Rust `{:?}` debug formatting of a character. -/
def debugChar (c : Char) : String := "'" ++ String.mk [c] ++ "'"

/-! ## `Tag` (nommy/src/text/tag.rs) -/

/-- `impl Peek<char> for Tag<TAG>`:
`TAG.chars().eq(input.take(TAG.len()))` — compare the tag's characters
with the next `TAG.len()` (bytes!) tokens of the cursor. -/
def tagPeek (tag : List Char) (input : List Char) : Bool :=
  tag == input.take (utf8Len tag)

/-- `impl Parse<char> for Tag<TAG>`:
`let s = String::from_iter(input.take(TAG.len()));` then compare with `TAG`.
Returns the result together with the final buffer state; the `take`
consumed `min (utf8Len tag) input.length` tokens in either branch. -/
def tagParse (tag : List Char) (input : List Char) :
    Except String Unit × List Char :=
  if tag = input.take (utf8Len tag) then
    (Except.ok (), input.drop (utf8Len tag))
  else
    (Except.error ("failed to parse tag " ++ debugStr tag ++ ", found "
        ++ debugStr (input.take (utf8Len tag))),
     input.drop (utf8Len tag))

/-! ## `OneOf` (nommy/src/text/one_of.rs) -/

/-- `impl Peek<char> for OneOf<CHARS>`: `input.next()` then `CHARS.contains(c)`. -/
def oneOfPeek (chars : List Char) (input : List Char) : Bool :=
  match input with
  | c :: _ => chars.contains c
  | [] => false

/-- `impl Parse<char> for OneOf<CHARS>`: consume one token; succeed when it
is one of `CHARS`, otherwise report it; at EOF report EOF. -/
def oneOfParse (chars : List Char) (input : List Char) :
    Except String Char × List Char :=
  match input with
  | c :: rest =>
    if chars.contains c then
      (Except.ok c, rest)
    else
      (Except.error ("error parsing one of " ++ debugStr chars ++ ", found " ++ debugChar c),
       rest)
  | [] => (Except.error ("error parsing one of " ++ debugStr chars ++ ", reached EOF"), [])

/-- `impl Process for OneOf`: `fn process(self) -> char { self.0 }`. -/
def oneOfProcess (c : Char) : Char := c

/-! ## `OneInRange` (nommy/src/text/one_of.rs) -/

/-- `RangeInclusive::contains` for characters. -/
def rangeContains (lo hi c : Char) : Bool := lo ≤ c && c ≤ hi

/-- Rust `{:?}` debug formatting of `RangeInclusive<char>`: `'lo'..='hi'`. -/
def rangeRepr (lo hi : Char) : String := debugChar lo ++ "..=" ++ debugChar hi

/-- `impl Parse<char> for OneInRange<CHAR_RANGE>`: consume one token;
succeed when it is in the range, otherwise error with the
`could not parse char in range …` messages built by `eyre!`. -/
def oneInRangeParse (lo hi : Char) (input : List Char) :
    Except String Char × List Char :=
  match input with
  | c :: rest =>
    if rangeContains lo hi c then
      (Except.ok c, rest)
    else
      (Except.error ("could not parse char in range " ++ rangeRepr lo hi ++ ", found " ++ debugChar c),
       rest)
  | [] =>
    (Except.error ("could not parse char in range " ++ rangeRepr lo hi ++ ", reached EOF"), [])

/-- `impl fmt::Display for OneInRangeError<CHAR_RANGE>`: the declared error
type's formatted output, `error parsing one char in …`. The payload is
`Option<char>`: the offending character, or `none` at EOF. -/
def oneInRangeErrorDisplay (lo hi : Char) : Option Char → String
  | some c => "error parsing one char in " ++ rangeRepr lo hi ++ ", found " ++ debugChar c
  | none => "error parsing one char in " ++ rangeRepr lo hi ++ ", EOF"

/-! ## Code generated by the enum derivation engine
(nommy-derive/src/enum_impl.rs)

A variant of a sum datatype is opaque to the engine: the generated code
only calls the per-variant helper functions `__peek_<variant>` (over a
forked cursor) and `__parse_<variant>` (over the buffer). We therefore
model a variant by the semantics of those two helpers over the list
model of the buffer. -/

/-- The semantics of one variant's generated `__peek_…`/`__parse_…`
helper pair, over token type `τ` producing values of the sum type `α`. -/
structure EnumVariantSem (τ α : Type) where
  peek : List τ → Bool
  parse : List τ → Except String α × List τ

/-- `EnumPeek::enrich` emits
`if true && !N::__peek_v0(&mut input.cursor()) && … { return false } true`:
the conjunction (left fold over declaration order) of the negated variant
peeks, each on a fresh cursor of `input`, is tested; `peek` returns `false`
when it holds and `true` otherwise. -/
def enumPeek {τ α : Type} (variants : List (EnumVariantSem τ α)) (input : List τ) : Bool :=
  !(variants.foldl (fun acc v => acc && !(v.peek input)) true)

/-- `EnumParse::enrich` and `ToTokens for EnumParse` emit
`if N::__peek_v0(&mut input.cursor()) { N::__parse_v0(input) } else if …
else { Err(eyre!("no variants of N could be parsed")) }`:
variants are tried in declaration order, peeking each on a fresh cursor;
the first whose peek succeeds is parsed from the buffer. -/
def enumParse {τ α : Type} (name : String) (variants : List (EnumVariantSem τ α))
    (input : List τ) : Except String α × List τ :=
  match variants with
  | [] => (Except.error ("no variants of " ++ name ++ " could be parsed"), input)
  | v :: rest => if v.peek input then v.parse input else enumParse name rest input

/-! ## The derivation step `EnumInput::new`
(nommy-derive/src/enum_impl.rs, lines 18–78)

`syn` datatype descriptions are external input; we model just the parts
`EnumInput::new` inspects: a variant's identifier and its fields, which
are named, unnamed (tuple), or unit. Attribute lists and type references
are carried opaquely (`FieldAttr::parse_attrs` / `GlobalAttr::parse_attrs`
live in the external `attr` module and are modelled as carrying the raw
attributes through unchanged). The Rust code panics on a unit variant;
the panic is embedded as an `Except.error` carrying the panic message. -/

/-- A named field of a variant: opaque attributes, identifier, opaque type-ref. -/
structure NamedField where
  attrs : List String
  name : String
  ty : Nat
deriving DecidableEq

/-- An unnamed (tuple) field of a variant: opaque attributes, opaque type-ref. -/
structure UnnamedField where
  attrs : List String
  ty : Nat
deriving DecidableEq

/-- `syn::Fields`: the field list of one declared variant. -/
inductive SynFields
  | named (fields : List NamedField)
  | unnamed (fields : List UnnamedField)
  | unit
deriving DecidableEq

/-- One declared variant, as seen by the derive macro. -/
structure SynVariant where
  ident : String
  fields : SynFields
deriving DecidableEq

/-- `EnumFieldType`: the internal description of a variant's fields. -/
inductive EnumFieldType
  | tuple (fields : List UnnamedField)
  | named (fields : List NamedField)
deriving DecidableEq

/-- `EnumField`: the internal description of one variant. -/
structure EnumField where
  name : String
  field_type : EnumFieldType
deriving DecidableEq

/-- `EnumInput`: the derivation engine's input record for a sum datatype. -/
structure EnumInput where
  attrs : List String
  name : String
  args : List String
  fields : List EnumField
deriving DecidableEq

/-- The per-variant body of the `map` closure inside `EnumInput::new`:
named and tuple variants are converted; a unit variant hits
`panic!("Unit variants not supported in enum parse derive")`. -/
def convVariant (v : SynVariant) : Except String EnumField :=
  match v.fields with
  | SynFields.named fs => Except.ok ⟨v.ident, EnumFieldType.named fs⟩
  | SynFields.unnamed fs => Except.ok ⟨v.ident, EnumFieldType.tuple fs⟩
  | SynFields.unit => Except.error "Unit variants not supported in enum parse derive"

/-- The `enum_data.variants.iter().map(…).collect()` loop of
`EnumInput::new`; a panic anywhere aborts the whole collection. -/
def convVariants : List SynVariant → Except String (List EnumField)
  | [] => Except.ok []
  | v :: rest =>
    match convVariant v with
    | Except.error e => Except.error e
    | Except.ok f =>
      match convVariants rest with
      | Except.error e => Except.error e
      | Except.ok fs => Except.ok (f :: fs)

/-- `EnumInput::new`: build the derivation input from the declared name,
generic arguments, raw attributes and variant list. -/
def EnumInput.new (name : String) (args : List String) (attrs : List String)
    (variants : List SynVariant) : Except String EnumInput :=
  match convVariants variants with
  | Except.error e => Except.error e
  | Except.ok fields => Except.ok ⟨attrs, name, args, fields⟩

/-! ## Concrete variants used by witnesses -/

/-- A variant whose peek always succeeds and whose parse returns `0`. -/
def acceptA : EnumVariantSem Char Nat :=
  ⟨fun _ => true, fun input => (Except.ok 0, input)⟩

/-- A second always-accepting variant, returning `1`. -/
def acceptB : EnumVariantSem Char Nat :=
  ⟨fun _ => true, fun input => (Except.ok 1, input)⟩

/-- A variant whose peek always fails. -/
def rejectAll : EnumVariantSem Char Nat :=
  ⟨fun _ => false, fun input => (Except.error "variant error", input)⟩

/-! ## Theorems -/

/-- Left fold of the generated conjunction of negated variant peeks,
for an arbitrary accumulator. -/
theorem enumPeek_foldl_eq_all {τ α : Type} (input : List τ) :
    ∀ (variants : List (EnumVariantSem τ α)) (b : Bool),
      variants.foldl (fun acc v => acc && !(v.peek input)) b
        = (b && variants.all fun v => !(v.peek input)) := by
  intro variants
  induction variants with
  | nil => intro b; simp
  | cons v vs ih => intro b; simp [List.foldl_cons, ih, Bool.and_assoc]

/-- C3: the derived peek for a sum runs each variant's peek on a fork of
the cursor, in declaration order, and returns true exactly when some
variant's peek returns true (false when none succeed). -/
theorem enumPeek_any_variant {τ α : Type} (variants : List (EnumVariantSem τ α))
    (input : List τ) :
    enumPeek variants input = variants.any fun v => v.peek input := by
  unfold enumPeek
  rw [enumPeek_foldl_eq_all]
  simp [List.any_eq_not_all_not]

/-- C1: the derived parse for a sum tries the variants in declaration
order, peeking each on a fresh cursor of the buffer; for the first
variant whose peek succeeds (all variants declared before it having
failing peeks), it parses that variant from the buffer and returns its
result. In particular, when the first and the second variant would both
accept the input, the first variant is parsed. -/
theorem enumParse_first_match {τ α : Type} (name : String)
    (pre post : List (EnumVariantSem τ α)) (v : EnumVariantSem τ α)
    (input : List τ)
    (hpre : ∀ u ∈ pre, u.peek input = false) (hv : v.peek input = true) :
    enumParse name (pre ++ v :: post) input = v.parse input := by
  induction pre with
  | nil => simp [enumParse, hv]
  | cons u us ih =>
    have hu : u.peek input = false := hpre u (by simp)
    have hus : ∀ w ∈ us, w.peek input = false := fun w hw => hpre w (by simp [hw])
    simp [enumParse, hu, ih hus]

/-- Witness for C1: both variants of `[acceptA, acceptB]` accept `['-']`,
and the derived parse yields the first one's parse result. -/
theorem enumParse_first_match_witness :
    acceptA.peek ['-'] = true ∧ acceptB.peek ['-'] = true ∧
    enumParse "Token" [acceptA, acceptB] ['-'] = acceptA.parse ['-'] :=
  ⟨rfl, rfl,
    enumParse_first_match "Token" [] [acceptB] acceptA ['-'] (by simp) rfl⟩

/-- C4: when no variant's peek succeeds on the input, the derived parse
for a sum named `name` returns the error
`"no variants of <name> could be parsed"`, and the buffer is unchanged. -/
theorem enumParse_no_match {τ α : Type} (name : String)
    (variants : List (EnumVariantSem τ α)) (input : List τ)
    (h : ∀ v ∈ variants, v.peek input = false) :
    enumParse name variants input
      = (Except.error ("no variants of " ++ name ++ " could be parsed"), input) := by
  induction variants with
  | nil => rfl
  | cons v vs ih =>
    have hv : v.peek input = false := h v (by simp)
    have hvs : ∀ w ∈ vs, w.peek input = false := fun w hw => h w (by simp [hw])
    simp [enumParse, hv, ih hvs]

/-- Witness for C4: a sum named `Name` both of whose variants' peeks fail
on input `"!"` produces exactly `"no variants of Name could be parsed"`. -/
theorem enumParse_no_match_witness :
    rejectAll.peek ['!'] = false ∧
    enumParse "Name" [rejectAll, rejectAll] ['!']
      = (Except.error "no variants of Name could be parsed", ['!']) :=
  ⟨rfl, enumParse_no_match "Name" [rejectAll, rejectAll] ['!'] (by simp [rejectAll])⟩

/-- C2 (failing input): for the multibyte tag `"é"` the next `1` token of
input `"éx"` equals the tag character-for-character, yet `peek` returns
`false`, because the code compares against `TAG.len() = 2` (UTF-8 bytes)
tokens rather than `1` (characters). -/
theorem tagPeek_multibyte_failing_input :
    ['é', 'x'].take 1 = ['é'] ∧ utf8Len ['é'] = 2 ∧
    tagPeek ['é'] ['é', 'x'] = false := by decide

/-- C5 (failing input): input `"éx"` begins with the tag `"é"`, yet
`parse` consumes two tokens and fails, reporting `found "éx"`. -/
theorem tagParse_multibyte_failing_input :
    ['é', 'x'].take 1 = ['é'] ∧
    tagParse ['é'] ['é', 'x']
      = (Except.error "failed to parse tag \"é\", found \"éx\"", []) :=
  ⟨by decide, rfl⟩

/-- C6: `OneOf<"-_">` parses `"-"` to the character `'-'` (after
`process`), and on `"a"` fails with exactly
`error parsing one of "-_", found 'a'`. -/
theorem oneOf_scenarios :
    (oneOfParse "-_".data "-".data = (Except.ok '-', []) ∧ oneOfProcess '-' = '-') ∧
    (oneOfParse "-_".data "a".data).1
      = Except.error "error parsing one of \"-_\", found 'a'" :=
  ⟨⟨rfl, rfl⟩, rfl⟩

/-- C7: the empty tag is a no-op: its peek succeeds on every input and
its parse succeeds on every input without consuming any tokens. -/
theorem tag_empty_noop (input : List Char) :
    tagPeek [] input = true ∧ tagParse [] input = (Except.ok (), input) := by
  constructor
  · simp [tagPeek, utf8Len]
  · simp [tagParse, utf8Len]

/-- C9: whether it succeeds or fails, `Tag::parse` advances the buffer by
exactly `min (TAG.len()) (remaining tokens)` — `TAG.len()` being the
tag's UTF-8 byte count — leaving `input.drop (utf8Len tag)`. -/
theorem tagParse_advances_min (tag input : List Char) :
    (tagParse tag input).2 = input.drop (utf8Len tag) ∧
    input.length - (tagParse tag input).2.length = min (utf8Len tag) input.length := by
  have h2 : (tagParse tag input).2 = input.drop (utf8Len tag) := by
    unfold tagParse
    by_cases h : tag = input.take (utf8Len tag)
    · rw [if_pos h]
    · rw [if_neg h]
  refine ⟨h2, ?_⟩
  rw [h2, List.length_drop]
  omega

/-- `convVariants` aborts with the unit-variant panic message as soon as
the variant list contains a unit variant. -/
theorem convVariants_unit (variants : List SynVariant)
    (h : ∃ v ∈ variants, v.fields = SynFields.unit) :
    convVariants variants
      = Except.error "Unit variants not supported in enum parse derive" := by
  induction variants with
  | nil => simp at h
  | cons v vs ih =>
    rcases h with ⟨w, hw, hunit⟩
    rcases List.mem_cons.mp hw with rfl | hmem
    · simp [convVariants, convVariant, hunit]
    · cases hv : v.fields with
      | unit => simp [convVariants, convVariant, hv]
      | named fs => simp [convVariants, convVariant, hv, ih ⟨w, hmem, hunit⟩]
      | unnamed fs => simp [convVariants, convVariant, hv, ih ⟨w, hmem, hunit⟩]

/-- C8: the derivation engine rejects every datatype description that
contains a unit (empty) variant: `EnumInput::new` fails with the
unit-variant panic instead of producing a derivation input. -/
theorem enumInput_new_unit_fails (name : String) (args attrs : List String)
    (variants : List SynVariant)
    (h : ∃ v ∈ variants, v.fields = SynFields.unit) :
    EnumInput.new name args attrs variants
      = Except.error "Unit variants not supported in enum parse derive" := by
  unfold EnumInput.new
  rw [convVariants_unit variants h]

/-- Witness for C8: a single-variant sum whose variant `A` is a unit
variant is rejected at derivation time. -/
theorem enumInput_new_unit_fails_witness :
    EnumInput.new "Foo" [] [] [⟨"A", SynFields.unit⟩]
      = Except.error "Unit variants not supported in enum parse derive" :=
  enumInput_new_unit_fails "Foo" [] [] [⟨"A", SynFields.unit⟩]
    ⟨⟨"A", SynFields.unit⟩, by simp, rfl⟩

/-- C10: when `OneInRange::parse` fails, the error it returns is never
the Display output of the declared error type `OneInRangeError`: the
`could not parse char in range …` messages differ textually from the
`error parsing one char in …` ones, for either payload. -/
theorem oneInRange_error_ne_display (lo hi : Char) (input : List Char)
    (e : String) (rest : List Char) (oc : Option Char)
    (h : oneInRangeParse lo hi input = (Except.error e, rest)) :
    e ≠ oneInRangeErrorDisplay lo hi oc := by
  cases input with
  | nil =>
    simp [oneInRangeParse] at h
    cases oc with
    | some c =>
      intro heq
      rw [← h.1] at heq
      have h2 := congrArg String.data heq
      simp [oneInRangeErrorDisplay, String.data_append] at h2
    | none =>
      intro heq
      rw [← h.1] at heq
      have h2 := congrArg String.data heq
      simp [oneInRangeErrorDisplay, String.data_append] at h2
  | cons c cs =>
    by_cases hc : rangeContains lo hi c
    · simp [oneInRangeParse, hc] at h
    · simp [oneInRangeParse, hc] at h
      cases oc with
      | some d =>
        intro heq
        rw [← h.1] at heq
        have h2 := congrArg String.data heq
        simp [oneInRangeErrorDisplay, String.data_append] at h2
      | none =>
        intro heq
        rw [← h.1] at heq
        have h2 := congrArg String.data heq
        simp [oneInRangeErrorDisplay, String.data_append] at h2

/-- Witness for C10: parsing `OneInRange<{'0'..='9'}>` against `"a"`
fails, and its message is neither Display rendering of
`OneInRangeError<{'0'..='9'}>`. -/
theorem oneInRange_error_ne_display_witness :
    oneInRangeParse '0' '9' ['a']
      = (Except.error "could not parse char in range '0'..='9', found 'a'", []) ∧
    "could not parse char in range '0'..='9', found 'a'"
      ≠ oneInRangeErrorDisplay '0' '9' (some 'a') ∧
    "could not parse char in range '0'..='9', found 'a'"
      ≠ oneInRangeErrorDisplay '0' '9' none :=
  ⟨rfl,
    oneInRange_error_ne_display '0' '9' ['a'] _ [] (some 'a') rfl,
    oneInRange_error_ne_display '0' '9' ['a'] _ [] none rfl⟩

end Nommy
